import Mathlib

/-!
Verification of the pure query functions of the smart-classroom timetable
application (`src/app.py`): the data model, the time-query engine
(current/next classes, free/busy rooms, minutes until the next class), the
per-faculty workload aggregation and the room-conflict detection.

Times of day are embedded as minutes since midnight (the source parses
"HH:MM" into `datetime.time` values and only ever compares them or
subtracts them at minute granularity).  A row's `room` is `Option String`:
`none` stands for a missing (NaN) cell, and mirrors the pandas rule that a
NaN value compares unequal to everything, including another NaN.
-/

namespace NextClass

/-- One row of the timetable, as produced by `load_timetable`. -/
structure ClassSession where
  lschool : String
  faculty : String
  course : String
  day : String
  start_time : Nat
  end_time : Nat
  room : Option String
deriving DecidableEq, Repr

/-- The injected clock: the current day name (`now.strftime("%A")`) and the
current time of day in minutes (`now.time()`).  The source reads the ambient
clock inside each query; the embedding passes the same value explicitly. -/
structure Clock where
  day : String
  time : Nat
deriving DecidableEq, Repr

/-- The function `get_current_classes`: rows whose day is the current day and whose
interval contains the current time, both bounds inclusive. -/
def get_current_classes (df : List ClassSession) (now : Clock) : List ClassSession :=
  df.filter (fun s =>
    s.day == now.day && decide (s.start_time ≤ now.time) && decide (now.time ≤ s.end_time))

/-- The fixed week cycle `days_order` of `get_next_classes`. -/
def days_order : List String :=
  ["Monday", "Tuesday", "Wednesday", "Thursday", "Friday", "Saturday", "Sunday"]

/-- The rows of a given day, in table order (`df[df["day"] == d]`). -/
def todayRows (df : List ClassSession) (d : String) : List ClassSession :=
  df.filter (fun s => s.day == d)

/-- The local `upcoming` of `get_next_classes` (also `future_classes` of
`calculate_time_until_next_class`): today's rows starting strictly after
the current time, in table order. -/
def upcomingRows (df : List ClassSession) (now : Clock) : List ClassSession :=
  (todayRows df now.day).filter (fun s => decide (now.time < s.start_time))

/-- The local `current_idx`: position of the day in `days_order`, defaulting
to 0 for an unrecognized name. -/
def wrapIdx (d : String) : Nat :=
  if days_order.contains d then days_order.indexOf d else 0

/-- The local `tomorrow`: the next day of the fixed cycle. -/
def tomorrowDay (d : String) : String :=
  days_order.getD ((wrapIdx d + 1) % 7) ""

/-- The function `get_next_classes`: today's rows with `start_time` strictly after the
current time, in table order, truncated to `limit`; when none remain, the
rows of the next day of the fixed cycle (untruncated by time), truncated to
`limit`. -/
def get_next_classes (df : List ClassSession) (now : Clock) (limit : Nat) : List ClassSession :=
  if (upcomingRows df now).isEmpty then
    (todayRows df (tomorrowDay now.day)).take limit
  else
    (upcomingRows df now).take limit

/-- The non-null rooms of a row list (`df["room"].dropna()`). -/
def roomsOf (l : List ClassSession) : List String :=
  l.filterMap (fun s => s.room)

/-- Python's string order: lexicographic on the code points. -/
def strLe (a b : String) : Prop :=
  a.data ≤ b.data

/-- Strict version of the string order. -/
def strLt (a b : String) : Prop :=
  a.data < b.data

instance : DecidableRel strLe := fun a b =>
  inferInstanceAs (Decidable (a.data ≤ b.data))

instance : DecidableRel strLt := fun a b =>
  inferInstanceAs (Decidable (a.data < b.data))

instance : IsTotal String strLe :=
  ⟨fun a b => le_total a.data b.data⟩

instance : IsTrans String strLe :=
  ⟨fun _ _ _ h1 h2 => le_trans h1 h2⟩

/-- Ascending sort of room/faculty names (Python `sorted` on strings). -/
def sortStrings (l : List String) : List String :=
  List.insertionSort strLe l

/-- The local `all_rooms`: sorted distinct non-null rooms of the table. -/
def all_roomsOf (df : List ClassSession) : List String :=
  sortStrings (roomsOf df).dedup

/-- The function `get_free_rooms`: the sorted distinct non-null rooms of the table minus
the (`occupied`) rooms of the currently ongoing classes. -/
def get_free_rooms (df : List ClassSession) (now : Clock) : List String :=
  (all_roomsOf df).filter (fun r => !((roomsOf (get_current_classes df now)).contains r))

/-- The function `get_busy_rooms`: the sorted distinct non-null rooms of the currently
ongoing classes. -/
def get_busy_rooms (df : List ClassSession) (now : Clock) : List String :=
  sortStrings (roomsOf (get_current_classes df now)).dedup

/-- The function `calculate_time_until_next_class`: the clamped minute difference from
now to the start of the first row (in table order) of today whose start is
strictly after now; `none` when there is no such row. -/
def calculate_time_until_next_class (df : List ClassSession) (now : Clock) : Option Int :=
  match (upcomingRows df now).head? with
  | some s => some (max 0 ((s.start_time : Int) - (now.time : Int)))
  | none => none

/-- The duration of a session in minutes: same-day time-of-day subtraction
`datetime.combine(min, end) - datetime.combine(min, start)` in minutes. -/
def durationMinutes (s : ClassSession) : Int :=
  (s.end_time : Int) - (s.start_time : Int)

/-- The value `round(m / 60, 1)` represented in tenths of an hour: the multiple-of-six
quotient rounded half to even (the float representation of the original can
shift exact halves, which no data probed here exercises). -/
def roundHalfEvenTenths (m : Int) : Int :=
  let a := m * 10
  let q := Int.ediv a 60
  let r := Int.emod a 60
  if 2 * r < 60 then q
  else if 60 < 2 * r then q + 1
  else if Int.emod q 2 = 0 then q else q + 1

/-- One row of the `get_faculty_workload` result. -/
structure WorkloadEntry where
  faculty : String
  num_classes : Nat
  total_minutes : Int
  total_hours_tenths : Int
deriving DecidableEq, Repr

/-- The rows of a given faculty, in table order. -/
def facultyRows (df : List ClassSession) (f : String) : List ClassSession :=
  df.filter (fun s => s.faculty == f)

/-- The aggregated workload row of one faculty. -/
def mkWorkloadEntry (df : List ClassSession) (f : String) : WorkloadEntry :=
  { faculty := f
    num_classes := (facultyRows df f).length
    total_minutes := ((facultyRows df f).map durationMinutes).sum
    total_hours_tenths := roundHalfEvenTenths (((facultyRows df f).map durationMinutes).sum) }

/-- Descending order on total hours, the key of `sort_values(..., ascending=False)`. -/
def hoursGE (a b : WorkloadEntry) : Prop :=
  b.total_hours_tenths ≤ a.total_hours_tenths

instance : DecidableRel hoursGE := fun a b =>
  inferInstanceAs (Decidable (b.total_hours_tenths ≤ a.total_hours_tenths))

instance : IsTotal WorkloadEntry hoursGE :=
  ⟨fun a b => le_total b.total_hours_tenths a.total_hours_tenths⟩

instance : IsTrans WorkloadEntry hoursGE :=
  ⟨fun _ _ _ h1 h2 => le_trans h2 h1⟩

/-- The function `get_faculty_workload`: group by faculty (pandas sorts the group keys
ascending), aggregate count and duration sum, round the hours, and sort by
total hours descending (stable for ties, as the group order is on small
inputs). -/
def get_faculty_workload (df : List ClassSession) : List WorkloadEntry :=
  List.insertionSort hoursGE
    ((sortStrings (df.map (fun s => s.faculty)).dedup).map (mkWorkloadEntry df))

/-- A conflict record: the shared room plus course, interval and faculty of
the two clashing rows (the source formats the interval into a string; the
embedding keeps the two endpoints, which carry the same information). -/
structure ConflictRecord where
  room : Option String
  course1 : String
  start1 : Nat
  end1 : Nat
  faculty1 : String
  course2 : String
  start2 : Nat
  end2 : Nat
  faculty2 : String
deriving DecidableEq, Repr

/-- Pandas equality on the `room` column: NaN compares unequal to
everything, including NaN. -/
def roomEq : Option String → Option String → Bool
  | some a, some b => a == b
  | _, _ => false

/-- The record built for the ordered pair (`row`, `overlap_row`). -/
def mkConflict (row o : ClassSession) : ConflictRecord :=
  { room := row.room
    course1 := row.course
    start1 := row.start_time
    end1 := row.end_time
    faculty1 := row.faculty
    course2 := o.course
    start2 := o.start_time
    end2 := o.end_time
    faculty2 := o.faculty }

/-- The inner mask of `detect_scheduling_conflicts` for a fixed `row`:
same room, overlapping interval (strictly). -/
def overlapsRow (row o : ClassSession) : Bool :=
  roomEq o.room row.room
    && decide (o.start_time < row.end_time)
    && decide (row.start_time < o.end_time)

/-- All ordered-pair records of a day's rows, indexed by position (pandas
row index), outer row first. -/
def conflictPairs (today : List ClassSession) : List ConflictRecord :=
  today.enum.flatMap (fun p =>
    (today.enum.filter (fun q => (q.1 != p.1) && overlapsRow p.2 q.2)).map
      (fun q => mkConflict p.2 q.2))

/-- The source's `if conflict not in conflicts: conflicts.append(conflict)`. -/
def addIfNew (acc : List ConflictRecord) (c : ConflictRecord) : List ConflictRecord :=
  if c ∈ acc then acc else acc ++ [c]

/-- The function `detect_scheduling_conflicts` for a target day: every ordered pair of
distinct same-day rows with the same non-null room and strictly overlapping
intervals yields a record, appended unless an identical record is already
present. -/
def detect_scheduling_conflicts (df : List ClassSession) (target : String) : List ConflictRecord :=
  (conflictPairs (todayRows df target)).foldl addIfNew []

/-- Modelled from the spec: the successor day in the fixed cycle
Monday→Tuesday→…→Sunday→Monday, an unrecognized day name defaulting the
base index to Monday.  Stated from the spec's words to compare with the
`indexOf`-arithmetic of `get_next_classes`. -/
def specNextDay (d : String) : String :=
  if d = "Monday" then "Tuesday"
  else if d = "Tuesday" then "Wednesday"
  else if d = "Wednesday" then "Thursday"
  else if d = "Thursday" then "Friday"
  else if d = "Friday" then "Saturday"
  else if d = "Saturday" then "Sunday"
  else if d = "Sunday" then "Monday"
  else "Tuesday"

/-! ### Concrete tables used by the examples and boundary checks -/

/-- The spec's end-to-end example row (CS, SmithJ, Algo101, Monday, 09:00, 10:00, R1). -/
def exRow1 : ClassSession := ⟨"CS", "SmithJ", "Algo101", "Monday", 540, 600, some "R1"⟩

/-- The spec's end-to-end example row (CS, DoeJ, DB201, Monday, 09:30, 10:30, R1). -/
def exRow2 : ClassSession := ⟨"CS", "DoeJ", "DB201", "Monday", 570, 630, some "R1"⟩

/-- The spec's two-row end-to-end example table. -/
def exTable : List ClassSession := [exRow1, exRow2]

/-- A Monday row starting at 10:00, listed first. -/
def u1 : ClassSession := ⟨"CS", "A", "C1", "Monday", 600, 660, some "R1"⟩

/-- A Monday row starting at 09:00, listed second. -/
def u2 : ClassSession := ⟨"CS", "B", "C2", "Monday", 540, 570, some "R2"⟩

/-- A table whose rows are not in start-time order. -/
def unsortedTable : List ClassSession := [u1, u2]

/-- A row whose faculty name sorts last but appears first. -/
def zRow : ClassSession := ⟨"CS", "Zed", "C1", "Monday", 540, 600, some "R1"⟩

/-- A row whose faculty name sorts first but appears second. -/
def aRow : ClassSession := ⟨"CS", "Abe", "C2", "Monday", 540, 600, some "R2"⟩

/-- A table with two equal-duration faculties in reverse alphabetical order. -/
def tieTable : List ClassSession := [zRow, aRow]

/-- A Monday row in the empty-string room. -/
def emptyRoomRow1 : ClassSession := ⟨"CS", "F1", "C1", "Monday", 540, 600, some ""⟩

/-- A second, overlapping Monday row in the empty-string room. -/
def emptyRoomRow2 : ClassSession := ⟨"CS", "F2", "C2", "Monday", 570, 630, some ""⟩

/-- A table whose only rooms are empty strings. -/
def emptyRoomTable : List ClassSession := [emptyRoomRow1, emptyRoomRow2]

/-! ### Helper lemmas -/

theorem head?_filter_eq_find? {α : Type} (p : α → Bool) (l : List α) :
    (l.filter p).head? = l.find? p := by
  induction l with
  | nil => rfl
  | cons x xs ih =>
    by_cases h : p x = true
    · rw [List.filter_cons, if_pos h, List.find?_cons_of_pos _ h]
      rfl
    · rw [List.filter_cons, if_neg h, List.find?_cons_of_neg _ h]
      exact ih

theorem mem_foldl_addIfNew (l acc : List ConflictRecord) (c : ConflictRecord) :
    c ∈ l.foldl addIfNew acc ↔ c ∈ acc ∨ c ∈ l := by
  induction l generalizing acc with
  | nil => simp
  | cons x xs ih =>
    rw [List.foldl_cons, ih]
    unfold addIfNew
    by_cases hx : x ∈ acc
    · rw [if_pos hx]
      simp only [List.mem_cons]
      constructor
      · rintro (h | h)
        · exact Or.inl h
        · exact Or.inr (Or.inr h)
      · rintro (h | rfl | h)
        · exact Or.inl h
        · exact Or.inl hx
        · exact Or.inr h
    · rw [if_neg hx]
      simp only [List.mem_append, List.mem_singleton, List.mem_cons]
      tauto

theorem nodup_foldl_addIfNew (l acc : List ConflictRecord) (h : acc.Nodup) :
    (l.foldl addIfNew acc).Nodup := by
  induction l generalizing acc with
  | nil => exact h
  | cons x xs ih =>
    rw [List.foldl_cons]
    apply ih
    unfold addIfNew
    by_cases hx : x ∈ acc
    · rw [if_pos hx]
      exact h
    · rw [if_neg hx, List.nodup_append]
      exact ⟨h, List.nodup_singleton x, List.disjoint_singleton.2 hx⟩

theorem mem_conflictPairs (today : List ClassSession) (c : ConflictRecord) :
    c ∈ conflictPairs today ↔
      ∃ i j, ∃ (hi : i < today.length) (hj : j < today.length),
        i ≠ j ∧ overlapsRow (today.get ⟨i, hi⟩) (today.get ⟨j, hj⟩) = true ∧
        c = mkConflict (today.get ⟨i, hi⟩) (today.get ⟨j, hj⟩) := by
  unfold conflictPairs
  rw [List.mem_flatMap]
  constructor
  · rintro ⟨p, hp, hc⟩
    rw [List.mem_map] at hc
    obtain ⟨q, hq, rfl⟩ := hc
    rw [List.mem_filter] at hq
    obtain ⟨hq, hcond⟩ := hq
    rw [List.mem_enum_iff_getElem?, List.getElem?_eq_some_iff] at hp hq
    obtain ⟨hi, hpi⟩ := hp
    obtain ⟨hj, hqj⟩ := hq
    simp only [Bool.and_eq_true, bne_iff_ne] at hcond
    have epi : today.get ⟨p.1, hi⟩ = p.2 := by rw [List.get_eq_getElem, hpi]
    have eqj : today.get ⟨q.1, hj⟩ = q.2 := by rw [List.get_eq_getElem, hqj]
    exact ⟨p.1, q.1, hi, hj, fun e => hcond.1 e.symm,
      by rw [epi, eqj]; exact hcond.2, by rw [epi, eqj]⟩
  · rintro ⟨i, j, hi, hj, hne, hov, rfl⟩
    refine ⟨(i, today.get ⟨i, hi⟩), ?_, ?_⟩
    · rw [List.mem_enum_iff_getElem?]
      simp [List.getElem?_eq_getElem hi, List.get_eq_getElem]
    · rw [List.mem_map]
      refine ⟨(j, today.get ⟨j, hj⟩), ?_, rfl⟩
      rw [List.mem_filter]
      refine ⟨?_, ?_⟩
      · rw [List.mem_enum_iff_getElem?]
        simp [List.getElem?_eq_getElem hj, List.get_eq_getElem]
      · simp only [Bool.and_eq_true, bne_iff_ne]
        exact ⟨fun e => hne e.symm, hov⟩

theorem mem_detect (df : List ClassSession) (target : String) (c : ConflictRecord) :
    c ∈ detect_scheduling_conflicts df target ↔
      c ∈ conflictPairs (todayRows df target) := by
  unfold detect_scheduling_conflicts
  rw [mem_foldl_addIfNew]
  simp

/-! ### Claim C4: strict interval-overlap test of conflict detection -/

/-- C4: conflict detection uses the strict overlap test.  Soundness: every
record of `detect_scheduling_conflicts` carries two strictly overlapping
intervals, so intervals that merely touch are never reported.
Completeness: any two distinct same-day rows sharing a (present) room with
`a.start < b.end` and `a.end > b.start` are flagged: their record is in the
output. -/
theorem detect_strict_overlap_iff (df : List ClassSession) (target : String) :
    (∀ c ∈ detect_scheduling_conflicts df target,
      c.start2 < c.end1 ∧ c.start1 < c.end2)
    ∧ (∀ i j (hi : i < (todayRows df target).length)
         (hj : j < (todayRows df target).length),
        i ≠ j →
        (∃ r, ((todayRows df target).get ⟨i, hi⟩).room = some r ∧
              ((todayRows df target).get ⟨j, hj⟩).room = some r) →
        ((todayRows df target).get ⟨i, hi⟩).start_time
            < ((todayRows df target).get ⟨j, hj⟩).end_time →
        ((todayRows df target).get ⟨j, hj⟩).start_time
            < ((todayRows df target).get ⟨i, hi⟩).end_time →
        mkConflict ((todayRows df target).get ⟨i, hi⟩)
            ((todayRows df target).get ⟨j, hj⟩)
          ∈ detect_scheduling_conflicts df target) := by
  constructor
  · intro c hc
    rw [mem_detect, mem_conflictPairs] at hc
    obtain ⟨i, j, hi, hj, _, hov, rfl⟩ := hc
    unfold overlapsRow at hov
    simp only [Bool.and_eq_true, decide_eq_true_eq] at hov
    exact ⟨hov.1.2, hov.2⟩
  · intro i j hi hj hne hroom h1 h2
    rw [mem_detect, mem_conflictPairs]
    refine ⟨i, j, hi, hj, hne, ?_, rfl⟩
    obtain ⟨r, hr1, hr2⟩ := hroom
    unfold overlapsRow
    simp only [Bool.and_eq_true, decide_eq_true_eq]
    refine ⟨⟨?_, h2⟩, h1⟩
    rw [hr1, hr2]
    simp [roomEq]

/-- Witness for C4 at the two-row example table: the overlapping pair is
flagged by the completeness direction. -/
theorem detect_strict_overlap_iff_witness :
    mkConflict exRow1 exRow2 ∈ detect_scheduling_conflicts exTable "Monday" := by
  have h := (detect_strict_overlap_iff exTable "Monday").2 0 1 (by decide) (by decide)
    (by decide) ⟨"R1", by decide, by decide⟩ (by decide) (by decide)
  exact h

/-! ### Claim C1: symmetric pairs are reported twice, not once -/

/-- C1 counterexample: on the spec's own two-row example the output has two
records, one for each orientation of the single unordered pair, so an
unordered pair is not reported at most once and the example does not yield
exactly one record. -/
theorem detect_example_two_records :
    detect_scheduling_conflicts exTable "Monday"
      = [mkConflict exRow1 exRow2, mkConflict exRow2 exRow1]
    ∧ mkConflict exRow1 exRow2 ≠ mkConflict exRow2 exRow1 := by decide

/-- C1 (amended): the dedup removes only exactly equal records, so each
ordered pair is reported at most once (the output has no duplicate records),
and the two-row example yields exactly two records, each referencing both
courses and room R1. -/
theorem detect_nodup_and_example :
    (∀ (df : List ClassSession) (target : String),
      (detect_scheduling_conflicts df target).Nodup)
    ∧ (detect_scheduling_conflicts exTable "Monday").length = 2
    ∧ (∀ c ∈ detect_scheduling_conflicts exTable "Monday",
        c.room = some "R1" ∧
          ((c.course1 = "Algo101" ∧ c.course2 = "DB201") ∨
           (c.course1 = "DB201" ∧ c.course2 = "Algo101"))) :=
  ⟨fun _ _ => nodup_foldl_addIfNew _ _ List.nodup_nil, by decide, by decide⟩

/-- Witness for the amended C1: the first record of the example output
references both courses and room R1. -/
theorem detect_nodup_and_example_witness :
    (mkConflict exRow1 exRow2).room = some "R1" ∧
      (((mkConflict exRow1 exRow2).course1 = "Algo101" ∧
        (mkConflict exRow1 exRow2).course2 = "DB201") ∨
       ((mkConflict exRow1 exRow2).course1 = "DB201" ∧
        (mkConflict exRow1 exRow2).course2 = "Algo101")) :=
  detect_nodup_and_example.2.2 (mkConflict exRow1 exRow2) (by decide)

/-! ### Claim C8: room filtering in conflict analysis -/

/-- C8 counterexample: two overlapping same-day rows whose room is the
empty string are reported, with the empty-string room in the records, so
empty-string rooms are not excluded from conflict analysis. -/
theorem detect_empty_room_reported :
    (detect_scheduling_conflicts emptyRoomTable "Monday").map (fun c => c.room)
      = [some "", some ""]
    ∧ (mkConflict emptyRoomRow1 emptyRoomRow2).room = some ""
    ∧ mkConflict emptyRoomRow1 emptyRoomRow2
        ∈ detect_scheduling_conflicts emptyRoomTable "Monday" := by decide

/-- C8 (amended): sessions with an absent room never participate in a
conflict record (a missing value compares unequal even to itself), but
empty-string rooms are compared like any other room value; every conflict
record carries a present room. -/
theorem detect_room_present (df : List ClassSession) (target : String) :
    ∀ c ∈ detect_scheduling_conflicts df target, ∃ r, c.room = some r := by
  intro c hc
  rw [mem_detect, mem_conflictPairs] at hc
  obtain ⟨i, j, hi, hj, _, hov, rfl⟩ := hc
  unfold overlapsRow at hov
  simp only [Bool.and_eq_true] at hov
  obtain ⟨⟨hroom, _⟩, _⟩ := hov
  cases ha : ((todayRows df target).get ⟨i, hi⟩).room with
  | none =>
    rw [ha] at hroom
    cases hb : ((todayRows df target).get ⟨j, hj⟩).room <;>
      rw [hb] at hroom <;> simp [roomEq] at hroom
  | some r => exact ⟨r, ha⟩

/-- Witness for the amended C8 at the empty-string-room table. -/
theorem detect_room_present_witness :
    ∃ r, (mkConflict emptyRoomRow1 emptyRoomRow2).room = some r :=
  detect_room_present emptyRoomTable "Monday"
    (mkConflict emptyRoomRow1 emptyRoomRow2) (by decide)

/-! ### Claim C5: inclusive bounds of the current-class query -/

/-- C5: for a table row with a well-formed interval, the current-class
query includes it when now equals its start time, still includes it when
now equals its end time, and excludes it one minute after its end time. -/
theorem current_classes_boundary (df : List ClassSession) (s : ClassSession)
    (hmem : s ∈ df) (hse : s.start_time ≤ s.end_time) :
    s ∈ get_current_classes df ⟨s.day, s.start_time⟩
    ∧ s ∈ get_current_classes df ⟨s.day, s.end_time⟩
    ∧ s ∉ get_current_classes df ⟨s.day, s.end_time + 1⟩ := by
  unfold get_current_classes
  refine ⟨List.mem_filter.2 ⟨hmem, ?_⟩, List.mem_filter.2 ⟨hmem, ?_⟩, fun h => ?_⟩
  · simp [hse]
  · simp [hse]
  · have h2 := (List.mem_filter.1 h).2
    simp only [Bool.and_eq_true, decide_eq_true_eq] at h2
    omega

/-- Witness for C5 at the example table's first row. -/
theorem current_classes_boundary_witness :
    exRow1 ∈ get_current_classes exTable ⟨exRow1.day, exRow1.start_time⟩
    ∧ exRow1 ∈ get_current_classes exTable ⟨exRow1.day, exRow1.end_time⟩
    ∧ exRow1 ∉ get_current_classes exTable ⟨exRow1.day, exRow1.end_time + 1⟩ :=
  current_classes_boundary exTable exRow1 (by decide) (by decide)

theorem upcomingRows_eq (df : List ClassSession) (now : Clock) :
    upcomingRows df now
      = df.filter (fun s => (s.day == now.day) && decide (now.time < s.start_time)) := by
  unfold upcomingRows todayRows
  rw [List.filter_filter]
  exact List.filter_congr (fun x _ => Bool.and_comm _ _)

/-! ### Claim C2: next-class lookup does not sort -/

/-- C2 counterexample: with the table rows out of start-time order, the
next-class query returns them in table order, not sorted ascending by
start time. -/
theorem next_classes_unsorted :
    get_next_classes unsortedTable ⟨"Monday", 480⟩ 5 = [u1, u2]
    ∧ u1.start_time = 600 ∧ u2.start_time = 540
    ∧ ¬ List.Sorted (fun a b : ClassSession => a.start_time ≤ b.start_time)
        (get_next_classes unsortedTable ⟨"Monday", 480⟩ 5) := by decide

/-- C2 (amended): when some session of the current day starts strictly
after now, the result is the current day's strictly-future sessions in
table order (a subsequence of the table, not sorted by start time),
truncated to `limit`; the result length never exceeds `limit`. -/
theorem next_classes_props (df : List ClassSession) (now : Clock) (limit : Nat) :
    (get_next_classes df now limit).length ≤ limit
    ∧ ((∃ s ∈ df, s.day = now.day ∧ now.time < s.start_time) →
        (get_next_classes df now limit).Sublist df
        ∧ (∀ s ∈ get_next_classes df now limit, s.day = now.day ∧ now.time < s.start_time)
        ∧ (get_next_classes df now limit).length
            = min limit
                (df.filter
                  (fun s => (s.day == now.day) && decide (now.time < s.start_time))).length) := by
  constructor
  · unfold get_next_classes
    split <;> exact List.length_take_le _ _
  · intro hex
    have hne : upcomingRows df now ≠ [] := by
      obtain ⟨s, hs, hday, ht⟩ := hex
      intro hnil
      have hmem : s ∈ upcomingRows df now := by
        rw [upcomingRows_eq, List.mem_filter]
        exact ⟨hs, by simp [hday, ht]⟩
      rw [hnil] at hmem
      exact absurd hmem (List.not_mem_nil s)
    have hbr : get_next_classes df now limit = (upcomingRows df now).take limit := by
      unfold get_next_classes
      rw [if_neg (fun h => hne (List.isEmpty_iff.1 h))]
    refine ⟨?_, ?_, ?_⟩
    · rw [hbr, upcomingRows_eq]
      exact (List.take_sublist _ _).trans (List.filter_sublist _)
    · intro s hs
      rw [hbr] at hs
      have hmem : s ∈ upcomingRows df now := (List.take_sublist _ _).mem hs
      rw [upcomingRows_eq, List.mem_filter] at hmem
      have := hmem.2
      simp only [Bool.and_eq_true, beq_iff_eq, decide_eq_true_eq] at this
      exact this
    · rw [hbr, List.length_take, upcomingRows_eq]

/-- Witness for the amended C2 at the out-of-order table. -/
theorem next_classes_props_witness :
    (get_next_classes unsortedTable ⟨"Monday", 480⟩ 5).Sublist unsortedTable
    ∧ (get_next_classes unsortedTable ⟨"Monday", 480⟩ 5).length
        = min 5
            (unsortedTable.filter
              (fun s => (s.day == (⟨"Monday", 480⟩ : Clock).day)
                && decide ((⟨"Monday", 480⟩ : Clock).time < s.start_time))).length := by
  have h := (next_classes_props unsortedTable ⟨"Monday", 480⟩ 5).2
    ⟨u1, by decide, by decide, by decide⟩
  exact ⟨h.1, h.2.2⟩

/-! ### Claim C3: minutes until next uses the first row, not the earliest -/

/-- C3 counterexample: with the out-of-order table at 08:00, the function
returns 120 minutes (to the first row in table order, starting 10:00) even
though the earliest strictly-future session today starts 60 minutes away. -/
theorem minutes_until_not_earliest :
    calculate_time_until_next_class unsortedTable ⟨"Monday", 480⟩ = some 120
    ∧ u2 ∈ unsortedTable ∧ u2.day = "Monday" ∧ 480 < u2.start_time
    ∧ (u2.start_time : Int) - 480 = 60
    ∧ (60 : Int) ≠ 120 := by decide

/-- C3 (amended): the function returns the clamped minute difference to the
first session in table order of the current day starting strictly after
now (not the earliest such session), and returns `none` exactly when no
session of the current day starts strictly after now. -/
theorem minutes_until_next_spec (df : List ClassSession) (now : Clock) :
    (calculate_time_until_next_class df now = none ↔
      ∀ s ∈ df, s.day = now.day → s.start_time ≤ now.time)
    ∧ (∀ s, df.find? (fun s => (s.day == now.day) && decide (now.time < s.start_time)) = some s →
        calculate_time_until_next_class df now
          = some ((s.start_time : Int) - (now.time : Int))) := by
  have hfind : (upcomingRows df now).head?
      = df.find? (fun s => (s.day == now.day) && decide (now.time < s.start_time)) := by
    rw [upcomingRows_eq, head?_filter_eq_find?]
  constructor
  · constructor
    · intro h s hs hday
      by_contra ht
      have hmem : s ∈ upcomingRows df now := by
        rw [upcomingRows_eq, List.mem_filter]
        exact ⟨hs, by simp [hday]; omega⟩
      unfold calculate_time_until_next_class at h
      cases hh : (upcomingRows df now).head? with
      | some s' => rw [hh] at h; exact absurd h (by simp)
      | none =>
        rw [List.head?_eq_none_iff] at hh
        rw [hh] at hmem
        exact absurd hmem (List.not_mem_nil s)
    · intro hall
      have hup : upcomingRows df now = [] := by
        rw [upcomingRows_eq, List.filter_eq_nil_iff]
        intro a ha
        simp only [Bool.and_eq_true, beq_iff_eq, decide_eq_true_eq, not_and, Nat.not_lt]
        exact fun hday => hall a ha hday
      unfold calculate_time_until_next_class
      rw [hup]
      rfl
  · intro s hs
    have hp := List.find?_some hs
    simp only [Bool.and_eq_true, beq_iff_eq, decide_eq_true_eq] at hp
    have hmax : max 0 ((s.start_time : Int) - (now.time : Int))
        = (s.start_time : Int) - (now.time : Int) := by
      rw [max_eq_right]
      omega
    unfold calculate_time_until_next_class
    rw [hfind, hs]
    exact congrArg some hmax

/-- Witness for the amended C3: the first strictly-future row of the
out-of-order table is 120 minutes away. -/
theorem minutes_until_next_spec_witness :
    calculate_time_until_next_class unsortedTable ⟨"Monday", 480⟩ = some 120 := by
  have h := (minutes_until_next_spec unsortedTable ⟨"Monday", 480⟩).2 u1 (by decide)
  exact h.trans (by decide)

/-! ### Claim C6: day wrap-around of the next-class lookup -/

/-- C6: when no session of the current day starts strictly after now, the
result is the full (not time-filtered) session list of the next day of the
fixed cycle Monday→…→Sunday→Monday, truncated to `limit`; an unrecognized
day name defaults the wrap base index to Monday, so its successor is
Tuesday (`specNextDay` is stated from the spec's cycle). -/
theorem next_classes_wrap (df : List ClassSession) (now : Clock) (limit : Nat)
    (h : ∀ s ∈ df, s.day = now.day → s.start_time ≤ now.time) :
    get_next_classes df now limit = (todayRows df (specNextDay now.day)).take limit := by
  have hup : upcomingRows df now = [] := by
    rw [upcomingRows_eq, List.filter_eq_nil_iff]
    intro a ha
    simp only [Bool.and_eq_true, beq_iff_eq, decide_eq_true_eq, not_and, Nat.not_lt]
    exact fun hday => h a ha hday
  have htom : tomorrowDay now.day = specNextDay now.day := by
    unfold tomorrowDay wrapIdx
    by_cases hc : days_order.contains now.day = true
    · rw [if_pos hc]
      have hmem : now.day ∈ days_order := by simpa using hc
      simp only [days_order, List.mem_cons, List.mem_singleton, List.not_mem_nil, or_false]
        at hmem
      rcases hmem with h1 | h1 | h1 | h1 | h1 | h1 | h1 <;> rw [h1] <;> decide
    · rw [if_neg hc]
      have h1 : now.day ≠ "Monday" := fun e => hc (by rw [e]; decide)
      have h2 : now.day ≠ "Tuesday" := fun e => hc (by rw [e]; decide)
      have h3 : now.day ≠ "Wednesday" := fun e => hc (by rw [e]; decide)
      have h4 : now.day ≠ "Thursday" := fun e => hc (by rw [e]; decide)
      have h5 : now.day ≠ "Friday" := fun e => hc (by rw [e]; decide)
      have h6 : now.day ≠ "Saturday" := fun e => hc (by rw [e]; decide)
      have h7 : now.day ≠ "Sunday" := fun e => hc (by rw [e]; decide)
      unfold specNextDay
      rw [if_neg h1, if_neg h2, if_neg h3, if_neg h4, if_neg h5, if_neg h6, if_neg h7]
      decide
  unfold get_next_classes
  rw [hup, htom]
  rfl

/-- Witness for C6: on a Sunday with nothing left today, the example table
wraps to Monday's full list. -/
theorem next_classes_wrap_witness :
    get_next_classes exTable ⟨"Sunday", 600⟩ 1
      = (todayRows exTable (specNextDay "Sunday")).take 1 :=
  next_classes_wrap exTable ⟨"Sunday", 600⟩ 1 (by decide)

theorem sortStrings_perm (l : List String) : (sortStrings l).Perm l :=
  List.perm_insertionSort strLe l

theorem sortStrings_sorted (l : List String) : (sortStrings l).Pairwise strLe :=
  List.sorted_insertionSort strLe l

theorem sortStrings_dedup_strict (l : List String) :
    (sortStrings l.dedup).Pairwise strLt := by
  have hs := sortStrings_sorted l.dedup
  have hn : (sortStrings l.dedup).Nodup :=
    ((sortStrings_perm l.dedup).nodup_iff).2 (List.nodup_dedup l)
  refine (hs.and hn).imp ?_
  rintro a b ⟨hle, hne⟩
  exact lt_of_le_of_ne hle (fun e => hne (by cases a; cases b; simp_all))

/-! ### Workload ordering machinery -/

/-- The lexicographic invariant of the sorted workload: hours strictly
descending, ties in ascending faculty order. -/
def entryLex (a b : WorkloadEntry) : Prop :=
  b.total_hours_tenths < a.total_hours_tenths
  ∨ (a.total_hours_tenths = b.total_hours_tenths ∧ strLt a.faculty b.faculty)

theorem pairwise_entryLex_orderedInsert (x : WorkloadEntry) (l : List WorkloadEntry)
    (hl : l.Pairwise entryLex) (hx : ∀ y ∈ l, strLt x.faculty y.faculty) :
    (List.orderedInsert hoursGE x l).Pairwise entryLex := by
  induction l with
  | nil => exact List.pairwise_singleton _ _
  | cons y ys ih =>
    rw [List.orderedInsert]
    by_cases hxy : hoursGE x y
    · rw [if_pos hxy]
      refine List.Pairwise.cons ?_ hl
      intro z hz
      have hzt : z.total_hours_tenths ≤ x.total_hours_tenths := by
        rcases List.mem_cons.1 hz with rfl | hz'
        · exact hxy
        · have hyz := (List.pairwise_cons.1 hl).1 z hz'
          have hzy : z.total_hours_tenths ≤ y.total_hours_tenths := by
            rcases hyz with h | h
            · exact le_of_lt h
            · exact le_of_eq h.1.symm
          exact le_trans hzy hxy
      rcases lt_or_eq_of_le hzt with h | h
      · exact Or.inl h
      · exact Or.inr ⟨h.symm, hx z hz⟩
    · rw [if_neg hxy]
      have hyx : x.total_hours_tenths < y.total_hours_tenths := by
        unfold hoursGE at hxy
        omega
      refine List.Pairwise.cons ?_ (ih (List.pairwise_cons.1 hl).2
        (fun z hz => hx z (List.mem_cons_of_mem y hz)))
      intro z hz
      rcases (List.mem_orderedInsert hoursGE).1 hz with rfl | hz'
      · exact Or.inl hyx
      · exact (List.pairwise_cons.1 hl).1 z hz'

theorem pairwise_entryLex_insertionSort (l : List WorkloadEntry)
    (hl : l.Pairwise (fun a b => strLt a.faculty b.faculty)) :
    (List.insertionSort hoursGE l).Pairwise entryLex := by
  induction l with
  | nil => exact List.Pairwise.nil
  | cons x xs ih =>
    rw [List.insertionSort]
    apply pairwise_entryLex_orderedInsert
    · exact ih (List.pairwise_cons.1 hl).2
    · intro y hy
      exact (List.pairwise_cons.1 hl).1 y
        (((List.perm_insertionSort hoursGE xs).mem_iff).1 hy)

/-! ### Claim C7: workload aggregation and its tie order -/

/-- C7 counterexample: two faculties with equal total hours, appearing in
the table in reverse alphabetical order, come out in alphabetical order
(the groupby key order), not in stable table-input order. -/
theorem workload_tie_not_input_order :
    (get_faculty_workload tieTable).map (fun e => e.faculty) = ["Abe", "Zed"]
    ∧ (get_faculty_workload tieTable).map (fun e => e.total_hours_tenths) = [10, 10]
    ∧ tieTable.map (fun s => s.faculty) = ["Zed", "Abe"]
    ∧ "Abe" ≠ "Zed" := by decide

/-- C7 (amended): per faculty, totalMinutes is the sum of `(end - start)`
minutes over that faculty's rows and totalHours is totalMinutes / 60
rounded to one decimal (held in tenths); the result is sorted by totalHours
descending, with ties in ascending faculty order (the groupby key order),
not by stable table-input order; a 09:00-10:30 session contributes 90
minutes and 1.5 hours. -/
theorem faculty_workload_spec (df : List ClassSession) :
    (get_faculty_workload df).Pairwise
        (fun a b => b.total_hours_tenths ≤ a.total_hours_tenths)
    ∧ (get_faculty_workload df).Pairwise
        (fun a b => a.total_hours_tenths = b.total_hours_tenths → strLt a.faculty b.faculty)
    ∧ (∀ e ∈ get_faculty_workload df,
        e.total_minutes = ((facultyRows df e.faculty).map durationMinutes).sum
        ∧ e.num_classes = (facultyRows df e.faculty).length
        ∧ e.total_hours_tenths = roundHalfEvenTenths e.total_minutes)
    ∧ durationMinutes ⟨"CS", "F", "C", "Monday", 540, 630, some "R"⟩ = 90
    ∧ roundHalfEvenTenths 90 = 15 := by
  have hfac : ((sortStrings (df.map (fun s => s.faculty)).dedup).map
      (mkWorkloadEntry df)).Pairwise (fun a b => strLt a.faculty b.faculty) :=
    List.Pairwise.map _ (fun _ _ h => h) (sortStrings_dedup_strict _)
  have hlex : (get_faculty_workload df).Pairwise entryLex :=
    pairwise_entryLex_insertionSort _ hfac
  refine ⟨hlex.imp ?_, hlex.imp ?_, ?_, by decide, by decide⟩
  · intro a b h
    rcases h with h | h
    · exact le_of_lt h
    · exact le_of_eq h.1.symm
  · intro a b h heq
    rcases h with h | h
    · exact absurd heq (ne_of_gt h)
    · exact h.2
  · intro e he
    have he' : e ∈ (sortStrings (df.map (fun s => s.faculty)).dedup).map
        (mkWorkloadEntry df) :=
      ((List.perm_insertionSort hoursGE _).mem_iff).1 he
    rw [List.mem_map] at he'
    obtain ⟨f, _, rfl⟩ := he'
    exact ⟨rfl, rfl, rfl⟩

/-- Witness for the amended C7 at the tie table's first output entry. -/
theorem faculty_workload_spec_witness :
    (mkWorkloadEntry tieTable "Abe").total_minutes
      = ((facultyRows tieTable (mkWorkloadEntry tieTable "Abe").faculty).map
          durationMinutes).sum
    ∧ (mkWorkloadEntry tieTable "Abe").num_classes
      = (facultyRows tieTable (mkWorkloadEntry tieTable "Abe").faculty).length
    ∧ (mkWorkloadEntry tieTable "Abe").total_hours_tenths
      = roundHalfEvenTenths (mkWorkloadEntry tieTable "Abe").total_minutes :=
  (faculty_workload_spec tieTable).2.2.1 (mkWorkloadEntry tieTable "Abe") (by decide)

/-! ### Claim C9: free and busy rooms partition the room set -/

/-- C9: free and busy rooms are disjoint; together they cover every
non-empty room of the table (in fact every non-null room); and both are
sorted lists of distinct room names. -/
theorem rooms_free_busy (df : List ClassSession) (now : Clock) :
    (∀ r, r ∈ get_free_rooms df now → r ∉ get_busy_rooms df now)
    ∧ (∀ s ∈ df, ∀ r, s.room = some r → r ≠ "" →
        r ∈ get_free_rooms df now ∨ r ∈ get_busy_rooms df now)
    ∧ (get_free_rooms df now).Pairwise strLt
    ∧ (get_busy_rooms df now).Pairwise strLt := by
  have hbusy_mem : ∀ r, r ∈ get_busy_rooms df now ↔
      r ∈ roomsOf (get_current_classes df now) := by
    intro r
    unfold get_busy_rooms
    rw [(sortStrings_perm _).mem_iff, List.mem_dedup]
  have hfree_mem : ∀ r, r ∈ get_free_rooms df now ↔
      (r ∈ roomsOf df ∧ r ∉ roomsOf (get_current_classes df now)) := by
    intro r
    unfold get_free_rooms all_roomsOf
    rw [List.mem_filter, (sortStrings_perm _).mem_iff, List.mem_dedup]
    simp
  refine ⟨?_, ?_, ?_, ?_⟩
  · intro r hf hb
    exact ((hfree_mem r).1 hf).2 ((hbusy_mem r).1 hb)
  · intro s hs r hr _
    have hrin : r ∈ roomsOf df := List.mem_filterMap.2 ⟨s, hs, by rw [hr]⟩
    by_cases hocc : r ∈ roomsOf (get_current_classes df now)
    · exact Or.inr ((hbusy_mem r).2 hocc)
    · exact Or.inl ((hfree_mem r).2 ⟨hrin, hocc⟩)
  · unfold get_free_rooms all_roomsOf
    exact List.Pairwise.sublist (List.filter_sublist _) (sortStrings_dedup_strict _)
  · exact sortStrings_dedup_strict _

/-- Witness for C9: room R1 of the example table is covered at 09:10. -/
theorem rooms_free_busy_witness :
    "R1" ∈ get_free_rooms exTable ⟨"Monday", 550⟩
    ∨ "R1" ∈ get_busy_rooms exTable ⟨"Monday", 550⟩ :=
  (rooms_free_busy exTable ⟨"Monday", 550⟩).2.1 exRow1 (by decide) "R1" (by decide)
    (by decide)

/-! ### Claim C10: workload keys, counts and their sum -/

/-- C10: the workload's faculty keys are exactly the distinct faculties of
the table, every class count is at least 1, and the counts sum to the
number of table rows. -/
theorem workload_keys_spec (df : List ClassSession) :
    (∀ f, f ∈ (get_faculty_workload df).map (fun e => e.faculty)
        ↔ f ∈ df.map (fun s => s.faculty))
    ∧ (∀ e ∈ get_faculty_workload df, 1 ≤ e.num_classes)
    ∧ ((get_faculty_workload df).map (fun e => e.num_classes)).sum = df.length := by
  have hperm : (get_faculty_workload df).Perm
      ((sortStrings (df.map (fun s => s.faculty)).dedup).map (mkWorkloadEntry df)) :=
    List.perm_insertionSort hoursGE _
  have hperm2 : (sortStrings (df.map (fun s => s.faculty)).dedup).Perm
      (df.map (fun s => s.faculty)).dedup :=
    sortStrings_perm _
  have hcomp : ((fun e : WorkloadEntry => e.faculty) ∘ mkWorkloadEntry df) = id :=
    funext (fun _ => rfl)
  refine ⟨?_, ?_, ?_⟩
  · intro f
    rw [(hperm.map _).mem_iff, List.map_map, hcomp, List.map_id, hperm2.mem_iff,
      List.mem_dedup]
  · intro e he
    have he' := (hperm.mem_iff).1 he
    rw [List.mem_map] at he'
    obtain ⟨f, hf, rfl⟩ := he'
    have hf2 : f ∈ df.map (fun s => s.faculty) :=
      List.mem_dedup.1 ((hperm2.mem_iff).1 hf)
    rw [List.mem_map] at hf2
    obtain ⟨s, hs, hsf⟩ := hf2
    have hsmem : s ∈ facultyRows df f := by
      unfold facultyRows
      rw [List.mem_filter]
      exact ⟨hs, by simp [hsf]⟩
    exact List.length_pos_of_mem hsmem
  · rw [(hperm.map _).sum_eq, List.map_map]
    have hcomp2 : ((fun e : WorkloadEntry => e.num_classes) ∘ mkWorkloadEntry df)
        = fun f => (facultyRows df f).length :=
      funext (fun _ => rfl)
    rw [hcomp2, (hperm2.map _).sum_eq]
    have hkey := List.sum_map_count_dedup_eq_length (df.map (fun s => s.faculty))
    rw [List.length_map] at hkey
    have hcnt : (fun f => (facultyRows df f).length)
        = fun f => List.count f (df.map (fun s => s.faculty)) := by
      funext f
      rw [List.count_eq_countP, List.countP_map, List.countP_eq_length_filter]
      rfl
    rw [hcnt]
    exact hkey

/-- Witness for C10: the tie table's first output entry counts one class. -/
theorem workload_keys_spec_witness :
    1 ≤ (mkWorkloadEntry tieTable "Abe").num_classes :=
  (workload_keys_spec tieTable).2.1 (mkWorkloadEntry tieTable "Abe") (by decide)

end NextClass
